import Mathlib

/-!
Verification development for the trust core of the `chum` ESP32 firmware
(`src/chum/trusted_keys_manager.cpp`, class `chum::TrustedKeysManager` with the
record types of `types.h`).

The C++ class is embedded shallowly:

* byte buffers (`std::vector<uint8_t>`) become `List Nat`;
* the cryptographic capability (`Security`, mbedtls) is an abstract record of
  total functions `SecOps` (hash to hex string, signature check, base64), as the
  design treats crypto as an external capability;
* the SPIFFS filesystem is a record `FS` holding, at parsed level, the contents
  of the JSON slots the manager reads and writes: the `/certs` directory (one
  parsed certificate per file, `none` for a file that does not deserialize),
  `/certificates.json`, `/profiles.json`, `/rights.json` and `/trusted_keys.json`.
  The JSON layer itself is abstracted away: each slot stores exactly the fields
  the C++ serializes into it, so a reviewer can match field lists one to one;
* the mutable fields of `TrustedKeysManager` become the record `MgrState`, and
  every member function that mutates state is a pure function returning the new
  state; `std::map` becomes an association list with `std::map` lookup
  semantics (iteration order of maps is not preserved; no claim depends on it);
* the recursive chain walk `getKeyTrustInfoDP` is embedded with an explicit
  fuel parameter (`dpFuel`); the public entry point runs it at fuel
  `dpBound`, which is proved sufficient: beyond the bound the result no longer
  depends on the fuel (the termination argument of the C++ code, made formal).
-/

namespace Chum

/-- Byte strings (`std::vector<uint8_t>`). -/
abbrev Bytes := List Nat

/-- The cryptographic capability used by the manager: `computeHash` (SHA-256
rendered as a hex string), `Security::verify(data, signature, publicKey)` and
the two base64 codecs. All are total functions, as in the source. -/
structure SecOps where
  hash : Bytes → String
  verify : Bytes → Bytes → Bytes → Bool
  b64decode : String → Bytes
  b64encode : Bytes → String

/-- `enum class CertificateType` of `types.h`. -/
inductive CertificateType where
  | Affirmation
  | TrustKeys
  | RightToDeclareTrustedKeysForEverybody
  | RightToDeclareTrustedKeysForSelf
deriving DecidableEq

/-- The numeric value of a `CertificateType` (the enum's underlying int). -/
def ctTag : CertificateType → Nat
  | .Affirmation => 0
  | .TrustKeys => 1
  | .RightToDeclareTrustedKeysForEverybody => 2
  | .RightToDeclareTrustedKeysForSelf => 3

/-- `enum class RootKeyMode` of `types.h`. -/
inductive RootKeyMode where
  | MainId
  | All
deriving DecidableEq

/-- `struct KeyTrustInfo` of `types.h`: the verdict record. -/
structure KeyTrustInfo where
  keyId : String
  trusted : Bool
  reason : String
deriving DecidableEq

/-- `struct CertificateData` of `types.h`. -/
structure CertificateData where
  id : String
  certificate : Bytes
  signature : Bytes
  timestamp : Nat
  trusted : Bool
  certificateHash : String
  signatureHash : String
  keyTrustInfo : Option KeyTrustInfo
deriving DecidableEq

/-- `struct ProfileData` of `types.h`. -/
structure ProfileData where
  id : String
  personId : String
  owner : String
  profileId : String
  profileHash : String
  keys : List String
  certificate : Bytes
  signature : Bytes
  timestamp : Nat
  certificates : List CertificateData
deriving DecidableEq

/-- `struct Signature` of `types.h`. A default-constructed field is the empty
buffer / empty string, as in C++. -/
structure Signature where
  signature : Bytes := []
  signer : String := ""
  data : Bytes := []
deriving DecidableEq

/-- `struct PersonRights` of `types.h`. -/
structure PersonRights where
  rightToDeclareTrustedKeysForEverybody : Bool
  rightToDeclareTrustedKeysForSelf : Bool
deriving DecidableEq

/-- One certificate record of `/certificates.json` as `loadFromStorage` reads
it: exactly the five fields the loader looks at (`certificate` and `signature`
are read back as C strings, `id` and `timestamp` are not read). -/
structure LoadedCertRec where
  certificate : String
  signature : String
  certificateHash : String
  signatureHash : String
  trusted : Bool
deriving DecidableEq

/-- Parsed `/certificates.json`. -/
structure CertsDoc where
  certs : List LoadedCertRec
deriving DecidableEq

/-- One profile record of `/profiles.json` as `loadFromStorage` reads it. -/
structure ProfileRec where
  personId : String
  owner : String
  profileId : String
  profileHash : String
  timestamp : Nat
  keys : List String
deriving DecidableEq

/-- A rights record of `/rights.json`: the `global` and `self` booleans. -/
structure RightsRec where
  global : Bool
  self : Bool
deriving DecidableEq

/-- One certificate as `saveToStorage` serializes it (seven fields; the
optional `keyTrustInfo` is not written by `saveToStorage`). -/
structure SavedCert where
  id : String
  certificate : String
  signature : String
  timestamp : Nat
  trusted : Bool
  certificateHash : String
  signatureHash : String
deriving DecidableEq

/-- One profile as `saveToStorage` serializes it. -/
structure SavedProfile where
  id : String
  personId : String
  owner : String
  profileId : String
  profileHash : String
  timestamp : Nat
  keys : List String
  certificates : List SavedCert
deriving DecidableEq

/-- The single aggregate document `saveToStorage` writes to
`/trusted_keys.json`. -/
structure SavedDoc where
  certificates : List SavedCert
  trustCache : List (String × KeyTrustInfo)
  profiles : List (String × List (String × SavedProfile))
  personRights : List (String × PersonRights)
deriving DecidableEq

/-- The SPIFFS slots touched by the manager, at parsed level. A `none` slot is
a file that is absent or does not deserialize (both make the C++ reader bail
out the same way). `certsDir` lists the files under `/certs`; an entry whose
payload is `none` is a file that does not deserialize and is skipped. -/
structure FS where
  certsDir : List (String × Option CertificateData) := []
  certificatesJson : Option CertsDoc := none
  profilesJson : Option (List ProfileRec) := none
  rightsJson : Option (List (String × RightsRec)) := none
  trustedKeysJson : Option SavedDoc := none
deriving DecidableEq

/-- Association-list lookup with the semantics of `std::map::find`. -/
def mapLookup {α : Type} (m : List (String × α)) (k : String) : Option α :=
  (m.find? (fun e => e.1 == k)).map (fun e => e.2)

/-- Association-list insert-or-assign (`std::map::operator[] =`). Modelled as
cons plus removal of the old binding; lookup behaviour matches `std::map`
(iteration order does not, and no embedded function depends on it). -/
def mapInsert {α : Type} (m : List (String × α)) (k : String) (v : α) :
    List (String × α) :=
  (k, v) :: m.filter (fun e => !(e.1 == k))

/-- The mutable fields of `TrustedKeysManager`. A freshly constructed manager
has every container empty. -/
structure MgrState where
  certificates : List CertificateData := []
  keysOfPerson : List (String × List String) := []
  rootKey : String := ""
  keysTrustCache : List (String × KeyTrustInfo) := []
  trustedPeers : List String := []
  localProfile : Option ProfileData := none
  keysToProfileMap : List (String × List (String × ProfileData)) := []
  personRightsMap : List (String × PersonRights) := []
deriving DecidableEq

/-- A fresh `TrustedKeysManager` (all containers default-constructed). -/
def initialState : MgrState := {}

/-- `TrustedKeysManager::loadCertificates(personId)`: opens `/certs`, reads
every file in it, keeps each one that deserializes. The `personId` argument is
bound but never used, exactly as in the source. -/
def loadCertificates (fs : FS) (personId : String) : List CertificateData :=
  fs.certsDir.filterMap (fun e => e.2)

/-- `TrustedKeysManager::getCertificatesOfType(data, type)`: the body is a
single call `loadCertificates(data)`; the `type` argument is ignored. -/
def getCertificatesOfType (fs : FS) (data : String) (t : CertificateType) :
    List CertificateData :=
  loadCertificates fs data

/-- `TrustedKeysManager::getRootKeys(mode)`: the function builds an empty
vector and returns it for every mode (the body is a comment describing what a
real implementation would do). -/
def getRootKeys (mode : RootKeyMode) : List String := []

/-- The root `KeyTrustInfo` list `isKeyTrusted` and `updateKeysMaps` build from
`getRootKeys()`: each root key becomes a trusted verdict with reason
`"Root key"`. -/
def rootKeyInfosOf (roots : List String) : List KeyTrustInfo :=
  roots.map (fun rootKey => { keyId := rootKey, trusted := true, reason := "Root key" })

/-- `TrustedKeysManager::validateCertificate`: recompute and compare both
hashes, then call `Security::verify` on the certificate bytes and the signature
bytes with an *empty* public key buffer (`std::vector<uint8_t>()`), exactly as
the source does. The three early returns collapse to `&&`. -/
def validateCertificate (ops : SecOps) (cert : CertificateData) : Bool :=
  (ops.hash cert.certificate == cert.certificateHash) &&
  (ops.hash cert.signature == cert.signatureHash) &&
  ops.verify cert.certificate cert.signature []

/-- The candidate loop of `getKeyTrustInfoDP`: walk the certificate list; skip
a certificate that fails `validateCertificate`; evaluate the certificate's
`id` through the recursive continuation `eval`; on the first trusted branch
return the `"Trusted by "` verdict for `key`; otherwise fall through. -/
def dpLoop (ops : SecOps) (eval : String → KeyTrustInfo) (key : String) :
    List CertificateData → Option KeyTrustInfo
  | [] => none
  | c :: rest =>
    if validateCertificate ops c then
      let r := eval c.id
      if r.trusted then
        some { keyId := key, trusted := true, reason := "Trusted by " ++ c.id }
      else dpLoop ops eval key rest
    else dpLoop ops eval key rest

/-- `TrustedKeysManager::getKeyTrustInfoDP`, fuelled. The body mirrors the
source line by line: visited check, root check, certificate enumeration (which
ignores its arguments), then the candidate loop with `visitedKeys + [key]`.
The fuel only bounds the recursion depth; `dp_fuel_stable` below proves that
any fuel at least `dpBound fs` gives the same result, which is the formal
content of the source's termination argument. -/
def dpFuel (ops : SecOps) (fs : FS) (rootKeyInfos : List KeyTrustInfo) :
    Nat → String → List String → KeyTrustInfo
  | 0, key, _ => { keyId := key, trusted := false, reason := "Circular dependency detected" }
  | fuel + 1, key, visitedKeys =>
    if key ∈ visitedKeys then
      { keyId := key, trusted := false, reason := "Circular dependency detected" }
    else
      match rootKeyInfos.find? (fun rootInfo => rootInfo.keyId == key) with
      | some rootInfo => rootInfo
      | none =>
        let certs := getCertificatesOfType fs key CertificateType.TrustKeys
        if certs.isEmpty then
          { keyId := key, trusted := false, reason := "No trust certificates found" }
        else
          let newVisited := visitedKeys ++ [key]
          match dpLoop ops (fun k => dpFuel ops fs rootKeyInfos fuel k newVisited) key certs with
          | some r => r
          | none =>
            { keyId := key, trusted := false, reason := "No trusted certification path found" }

/-- Fuel sufficient for `dpFuel` to run to completion from any start: one more
than the number of stored certificates, plus one (proved adequate by
`dp_fuel_stable`). -/
def dpBound (fs : FS) : Nat := (loadCertificates fs "").length + 2

/-- `TrustedKeysManager::getKeyTrustInfoDP` proper: the fuelled walk at an
adequate fuel. -/
def getKeyTrustInfoDP (ops : SecOps) (fs : FS) (rootKeyInfos : List KeyTrustInfo)
    (key : String) (visitedKeys : List String) : KeyTrustInfo :=
  dpFuel ops fs rootKeyInfos (dpBound fs) key visitedKeys

/-- `TrustedKeysManager::isKeyTrusted`: answer from `keysTrustCache_` when
possible, otherwise build the root infos from `getRootKeys()`, run the chain
walk with an empty visited list, cache the verdict and return its `trusted`
bit. Returns the bool together with the updated manager state. -/
def isKeyTrusted (ops : SecOps) (fs : FS) (st : MgrState) (key : String) :
    Bool × MgrState :=
  match mapLookup st.keysTrustCache key with
  | some info => (info.trusted, st)
  | none =>
    let rootKeyInfos := rootKeyInfosOf (getRootKeys RootKeyMode.MainId)
    let trustInfo := getKeyTrustInfoDP ops fs rootKeyInfos key []
    (trustInfo.trusted,
      { st with keysTrustCache := mapInsert st.keysTrustCache key trustInfo })

/-- The key loop of `findKeyThatVerifiesSignature`: try each candidate key of
the claimed signer; on the first key whose crypto check succeeds, look up its
trust and return the verdict record. -/
def findVerifyingKey (ops : SecOps) (fs : FS) :
    MgrState → List String → Bytes → Bytes → Option KeyTrustInfo × MgrState
  | st, [], _, _ => (none, st)
  | st, key :: rest, sigData, sigBytes =>
    if ops.verify sigData sigBytes (ops.b64decode key) then
      let (t, st') := isKeyTrusted ops fs st key
      (some { keyId := key, trusted := t, reason := "signature verified" }, st')
    else findVerifyingKey ops fs st rest sigData sigBytes

/-- `TrustedKeysManager::findKeyThatVerifiesSignature`. -/
def findKeyThatVerifiesSignature (ops : SecOps) (fs : FS) (st : MgrState)
    (sig : Signature) : Option KeyTrustInfo × MgrState :=
  match mapLookup st.keysOfPerson sig.signer with
  | none => (none, st)
  | some keys => findVerifyingKey ops fs st keys sig.data sig.signature

/-- `TrustedKeysManager::verifySignatureWithTrustedKeys`: true iff a candidate
key verified the signature and that key is trusted. -/
def verifySignatureWithTrustedKeys (ops : SecOps) (fs : FS) (st : MgrState)
    (sig : Signature) : Bool × MgrState :=
  match findKeyThatVerifiesSignature ops fs st sig with
  | (some info, st') => (info.trusted, st')
  | (none, st') => (false, st')

/-- The `memcpy(&type, cert.certificate.data(), sizeof(CertificateType))` of
`updatePersonRightsMap`: the first four payload bytes read as a little-endian
32-bit value (the underlying int of the enum on the ESP32). Missing bytes read
as zero. -/
def payloadTag (b : Bytes) : Nat :=
  b.getD 0 0 + 256 * b.getD 1 0 + 65536 * b.getD 2 0 + 16777216 * b.getD 3 0

/-- One rights scan of `updatePersonRightsMap`: walk the stored certificates
(`loadCertificates(personId)`, which enumerates every stored certificate); for
a certificate marked `trusted`, build a `Signature` whose `data` is the
certificate's signature bytes and whose `signer` is the person under scrutiny
(the signature buffer itself stays default-empty, as in the source), run
`verifySignatureWithTrustedKeys`, and on success check the payload is nonempty
and its leading type tag equals `tag`; the first full hit stops the scan. -/
def certRightsHit (ops : SecOps) (fs : FS) (pid : String) (tag : Nat) :
    MgrState → List CertificateData → Bool × MgrState
  | st, [] => (false, st)
  | st, cert :: rest =>
    if cert.trusted then
      let sig : Signature := { signer := pid, data := cert.signature }
      let (ok, st') := verifySignatureWithTrustedKeys ops fs st sig
      if ok && decide (0 < cert.certificate.length) &&
          (payloadTag cert.certificate == tag) then
        (true, st')
      else certRightsHit ops fs pid tag st' rest
    else certRightsHit ops fs pid tag st rest

/-- The per-person body of `updatePersonRightsMap`: both rights start false;
the `global` (resp. `self`) flag of the rights file gates a scan for a
certificate with tag `RightToDeclareTrustedKeysForEverybody` (resp. `...Self`);
then every root key owned by the person forces both rights true — a loop over
`getRootKeys(All)`, which returns the empty list. -/
def processPerson (ops : SecOps) (fs : FS) (st : MgrState) (pid : String)
    (rr : RightsRec) : MgrState :=
  let (g, st1) :=
    if rr.global then
      certRightsHit ops fs pid (ctTag CertificateType.RightToDeclareTrustedKeysForEverybody)
        st (loadCertificates fs pid)
    else (false, st)
  let (s, st2) :=
    if rr.self then
      certRightsHit ops fs pid (ctTag CertificateType.RightToDeclareTrustedKeysForSelf)
        st1 (loadCertificates fs pid)
    else (false, st1)
  let (g2, s2) := (getRootKeys RootKeyMode.All).foldl
    (fun gs key =>
      if ((mapLookup st2.keysOfPerson pid).getD []).contains key then (true, true) else gs)
    (g, s)
  { st2 with
    personRightsMap := mapInsert st2.personRightsMap pid
      ({ rightToDeclareTrustedKeysForEverybody := g2,
         rightToDeclareTrustedKeysForSelf := s2 }) }

/-- `TrustedKeysManager::updateKeysMaps`: clear `keysTrustCache_` and
`keysToProfileMap_`, rebuild the root infos from `getRootKeys()`, then fill the
trust cache with a chain-walk verdict for the `id` of every certificate in
`certificates_` (first occurrence wins). The profile map is never refilled. -/
def updateKeysMaps (ops : SecOps) (fs : FS) (st : MgrState) : MgrState :=
  let rootKeyInfos := rootKeyInfosOf (getRootKeys RootKeyMode.MainId)
  let cache := st.certificates.foldl
    (fun acc cert =>
      match mapLookup acc cert.id with
      | some _ => acc
      | none => mapInsert acc cert.id (getKeyTrustInfoDP ops fs rootKeyInfos cert.id []))
    []
  { st with keysTrustCache := cache, keysToProfileMap := [] }

/-- `TrustedKeysManager::getProfileData(profileHash, timestamp)`: scan
`keysToProfileMap_`; in each per-key profile map look the hash up; skip the
entry when a nonzero timestamp does not match; return a copy of the first
match, `nullptr` when none. -/
def getProfileData (st : MgrState) (profileHash : String) (timestamp : Nat) :
    Option ProfileData :=
  st.keysToProfileMap.findSome? (fun e =>
    match mapLookup e.2 profileHash with
    | none => none
    | some p =>
      if timestamp ≠ 0 && p.timestamp ≠ timestamp then none else some p)

/-- The `snprintf(filename, 64, "/certs/%s.json", id)` of `storeCertificate`:
the formatted name truncated to 63 characters. -/
def certsPath (id : String) : String :=
  (("/certs/" ++ id ++ ".json").take 63)

/-- Writing one file: `SPIFFS.open(name, "w")` truncates an existing file or
creates a new one. -/
def fsWriteCert (fs : FS) (name : String) (c : CertificateData) : FS :=
  if fs.certsDir.any (fun e => e.1 == name) then
    { fs with certsDir := fs.certsDir.map (fun e => if e.1 == name then (name, some c) else e) }
  else
    { fs with certsDir := fs.certsDir ++ [(name, some c)] }

/-- `TrustedKeysManager::storeCertificate`: create `/certs` if needed and write
the certificate record (all seven fields plus the optional `keyTrustInfo`) to
`/certs/<id>.json`. No validation of any kind is performed; failure is possible
only for filesystem errors, which the model does not produce. -/
def storeCertificate (fs : FS) (cert : CertificateData) : Bool × FS :=
  (true, fsWriteCert fs (certsPath cert.id) cert)

/-- The seven certificate fields `saveToStorage` serializes (base64 for the
two byte buffers). -/
def savedCertOf (ops : SecOps) (c : CertificateData) : SavedCert :=
  { id := c.id, certificate := ops.b64encode c.certificate,
    signature := ops.b64encode c.signature, timestamp := c.timestamp,
    trusted := c.trusted, certificateHash := c.certificateHash,
    signatureHash := c.signatureHash }

/-- The profile fields `saveToStorage` serializes. -/
def savedProfileOf (ops : SecOps) (p : ProfileData) : SavedProfile :=
  { id := p.id, personId := p.personId, owner := p.owner, profileId := p.profileId,
    profileHash := p.profileHash, timestamp := p.timestamp, keys := p.keys,
    certificates := p.certificates.map (savedCertOf ops) }

/-- The aggregate document `saveToStorage` builds: certificates, the trust
cache, the nested profile map, and the person rights map. -/
def mkSavedDoc (ops : SecOps) (st : MgrState) : SavedDoc :=
  { certificates := st.certificates.map (savedCertOf ops),
    trustCache := st.keysTrustCache,
    profiles := st.keysToProfileMap.map
      (fun e => (e.1, e.2.map (fun pe => (pe.1, savedProfileOf ops pe.2)))),
    personRights := st.personRightsMap }

/-- `TrustedKeysManager::saveToStorage`: serialize the whole graph into the
single file `/trusted_keys.json`. No other slot is written. -/
def saveToStorage (ops : SecOps) (st : MgrState) (fs : FS) : Bool × FS :=
  (true, { fs with trustedKeysJson := some (mkSavedDoc ops st) })

/-- `TrustedKeysManager::updatePersonRightsMap` (see `processPerson`): clear
the map; if `/rights.json` is absent or unparsable return at once (without
saving); otherwise process every listed person and call `saveToStorage`. -/
def updatePersonRightsMap (ops : SecOps) (fs : FS) (st : MgrState) :
    MgrState × FS :=
  let st0 := { st with personRightsMap := [] }
  match fs.rightsJson with
  | none => (st0, fs)
  | some l =>
    let st1 := l.foldl (fun acc pr => processPerson ops fs acc pr.1 pr.2) st0
    let (_, fs') := saveToStorage ops st1 fs
    (st1, fs')

/-- The bytes of a string read back byte per byte (the loader's
`std::vector<uint8_t>(data, data + strlen(data))`). -/
def strToBytes (s : String) : Bytes := s.data.map (fun c => c.toNat)

/-- The certificate `loadFromStorage` reconstructs from one record of
`/certificates.json`: only five fields are read; `id` stays empty and
`timestamp` stays zero. -/
def loadedCertOf (r : LoadedCertRec) : CertificateData :=
  { id := "", certificate := strToBytes r.certificate,
    signature := strToBytes r.signature, timestamp := 0, trusted := r.trusted,
    certificateHash := r.certificateHash, signatureHash := r.signatureHash,
    keyTrustInfo := none }

/-- The profile `loadFromStorage` reconstructs from one record of
`/profiles.json`. -/
def loadedProfileOf (r : ProfileRec) : ProfileData :=
  { id := "", personId := r.personId, owner := r.owner, profileId := r.profileId,
    profileHash := r.profileHash, keys := r.keys, certificate := [],
    signature := [], timestamp := r.timestamp, certificates := [] }

/-- The per-profile indexing of `loadFromStorage`: for every key of the
profile, map it to the profile under its hash, and append it to the owner's
key list when the owner is nonempty. -/
def indexProfile (st : MgrState) (p : ProfileData) : MgrState :=
  p.keys.foldl
    (fun acc key =>
      let inner := (mapLookup acc.keysToProfileMap key).getD []
      let acc1 := { acc with
        keysToProfileMap := mapInsert acc.keysToProfileMap key (mapInsert inner p.profileHash p) }
      if p.owner ≠ "" then
        { acc1 with
          keysOfPerson := mapInsert acc1.keysOfPerson p.owner
            (((mapLookup acc1.keysOfPerson p.owner).getD []) ++ [key]) }
      else acc1)
    st

/-- `TrustedKeysManager::loadFromStorage`: fail unless `/certificates.json`
opens and parses; append its certificates to `certificates_`; then, when
present and parsable, index the profiles of `/profiles.json` and copy the
rights of `/rights.json` straight into `personRightsMap_`. Nothing reads
`/trusted_keys.json`, and no trust-cache entry is restored. -/
def loadFromStorage (fs : FS) (st : MgrState) : Bool × MgrState :=
  match fs.certificatesJson with
  | none => (false, st)
  | some doc =>
    let st1 := { st with certificates := st.certificates ++ doc.certs.map loadedCertOf }
    let st2 :=
      match fs.profilesJson with
      | none => st1
      | some profs => profs.foldl (fun acc r => indexProfile acc (loadedProfileOf r)) st1
    let st3 :=
      match fs.rightsJson with
      | none => st2
      | some l => l.foldl
          (fun acc pr =>
            { acc with
              personRightsMap := mapInsert acc.personRightsMap pr.1
                ({ rightToDeclareTrustedKeysForEverybody := pr.2.global,
                   rightToDeclareTrustedKeysForSelf := pr.2.self }) })
          st2
    (true, st3)

/-- The spec's `may_endorse_for_everybody(p)`: the rebuilt rights map's global
bit for `p` (a person absent from the map has no rights). -/
def mayEndorseForEverybody (st : MgrState) (p : String) : Bool :=
  match mapLookup st.personRightsMap p with
  | some r => r.rightToDeclareTrustedKeysForEverybody
  | none => false

/-- The spec's `may_endorse_for_self(p)`. -/
def mayEndorseForSelf (st : MgrState) (p : String) : Bool :=
  match mapLookup st.personRightsMap p with
  | some r => r.rightToDeclareTrustedKeysForSelf
  | none => false

/-! ### Definitions following the specification's words

The claims compare the code against the specification's description of
`validate_certificate` and of the rights rule. The definitions below follow
the spec's words (not the source) and exist only for that comparison. -/

/-- Decoding a byte buffer back into a string, byte per byte. -/
def bytesToStr (b : Bytes) : String :=
  String.mk (b.map (fun n => Char.ofNat n))

/-- The spec's `validate_certificate` (§4.4): purely structural —
`payload_hash == H(payload)`, `signature_hash == H(signature)`, and the payload
decodable as a record of the declared kind (modelled as: the payload carries a
four-byte kind tag whose value is one of the four kinds). It performs no
signature verification. -/
def validateCertificateSpec (ops : SecOps) (cert : CertificateData) : Bool :=
  (ops.hash cert.certificate == cert.certificateHash) &&
  (ops.hash cert.signature == cert.signatureHash) &&
  decide (4 ≤ cert.certificate.length) && decide (payloadTag cert.certificate ≤ 3)

/-- Modelled from the spec (§6): the payload of an endorsement-authority
certificate carries `{ grantor_person_id, grantee_person_id }`. The source
never decodes these fields, so a concrete layout is fixed here: after the
four-byte kind tag, a length byte and the grantor's bytes, then a length byte
and the grantee's bytes filling the rest of the payload. -/
def specDecodeAuthority (b : Bytes) : Option (String × String) :=
  match b with
  | _ :: _ :: _ :: _ :: glen :: rest =>
    if glen ≤ rest.length then
      match rest.drop glen with
      | elen :: rest2 =>
        if elen = rest2.length then
          some (bytesToStr (rest.take glen), bytesToStr rest2)
        else none
      | [] => none
    else none
  | _ => none

/-- The spec's rule for `may_endorse_for_everybody(p)` (§4.3): there is a
valid admitted certificate of kind `RightToDeclareTrustedKeysForEverybody`
whose signer `q` has some key trusted by the chain evaluator and whose payload
names `p` as grantee. -/
def specMayEndorseForEverybody (ops : SecOps) (fs : FS) (st : MgrState)
    (p : String) : Bool :=
  (loadCertificates fs "").any (fun c =>
    validateCertificateSpec ops c &&
    (payloadTag c.certificate == ctTag CertificateType.RightToDeclareTrustedKeysForEverybody) &&
    (match specDecodeAuthority c.certificate with
     | some (grantor, grantee) =>
       (grantee == p) &&
       ((mapLookup st.keysOfPerson grantor).getD []).any
         (fun k => (isKeyTrusted ops fs st k).1)
     | none => false))

/-! ### Concrete instances used by witnesses and counterexamples -/

/-- A concrete crypto capability for evaluation: constant hash `"x"`,
signature checks always succeed. -/
def opsAccept : SecOps :=
  { hash := fun _ => "x", verify := fun _ _ _ => true,
    b64decode := fun _ => [], b64encode := fun _ => "" }

/-- A concrete crypto capability whose signature check fails exactly on an
empty public-key buffer — the behaviour of `Security::verify`, where
`mbedtls_pk_parse_public_key` rejects an empty buffer before any verification
is attempted. -/
def opsMbed : SecOps :=
  { hash := fun _ => "x", verify := fun _ _ key => !key.isEmpty,
    b64decode := fun _ => [], b64encode := fun _ => "" }

/-- The empty filesystem: nothing stored. -/
def fsEmpty : FS := {}

/-- A well-formed certificate under the constant hash `"x"`: both stored
hashes match, and the payload starts with a decodable kind tag
(`Affirmation`). -/
def certGood : CertificateData :=
  { id := "cGood", certificate := [0, 0, 0, 0, 7], signature := [9],
    timestamp := 5, trusted := true, certificateHash := "x",
    signatureHash := "x", keyTrustInfo := none }

/-- A certificate whose stored `certificateHash` does not match the hash of
its payload (every concrete `SecOps` here hashes to `"x"`). -/
def certBadHash : CertificateData :=
  { id := "cBad", certificate := [1, 2, 3], signature := [4],
    timestamp := 0, trusted := true, certificateHash := "WRONG",
    signatureHash := "x", keyTrustInfo := none }

/-- A self-endorsing certificate for the key `"k"`: its `id` — the key the
chain walk recurses on — is `"k"` itself. -/
def certSelf : CertificateData :=
  { id := "k", certificate := [1], signature := [1], timestamp := 0,
    trusted := true, certificateHash := "x", signatureHash := "x",
    keyTrustInfo := none }

/-- A certificate whose `id` is the root key `"r"`. -/
def certToRoot : CertificateData :=
  { id := "r", certificate := [2], signature := [2], timestamp := 0,
    trusted := true, certificateHash := "x", signatureHash := "x",
    keyTrustInfo := none }

/-- Two certificates endorsing each other: evaluating `"x1"` recurses on
`"x2"` and vice versa. -/
def certCycA : CertificateData :=
  { id := "x2", certificate := [3], signature := [3], timestamp := 0,
    trusted := true, certificateHash := "x", signatureHash := "x",
    keyTrustInfo := none }

/-- Companion of `certCycA`. -/
def certCycB : CertificateData :=
  { id := "x1", certificate := [4], signature := [4], timestamp := 0,
    trusted := true, certificateHash := "x", signatureHash := "x",
    keyTrustInfo := none }

/-- Filesystem holding only the self-endorsing certificate. -/
def fsSelf : FS := { certsDir := [("/certs/k.json", some certSelf)] }

/-- Filesystem holding the mutually endorsing pair. -/
def fsCyc : FS :=
  { certsDir := [("/certs/x2.json", some certCycA), ("/certs/x1.json", some certCycB)] }

/-- Filesystem holding the self-endorsing certificate followed by a
certificate that reaches the root `"r"`. -/
def fsSelfRoot : FS :=
  { certsDir := [("/certs/k.json", some certSelf), ("/certs/r.json", some certToRoot)] }

/-- A root-info list for the single root key `"r"`, as `isKeyTrusted` would
build it from a root set `{r}`. -/
def rootsR : List KeyTrustInfo := rootKeyInfosOf ["r"]

/-- The authority certificate of the C4 counterexample: kind tag
`RightToDeclareTrustedKeysForEverybody` (value 2, little-endian in the first
four bytes), then the spec-modelled payload naming grantor `"Q"` and grantee
`"P"`; both stored hashes match the constant hash. -/
def certAuthority : CertificateData :=
  { id := "cAuth", certificate := [2, 0, 0, 0, 1, 81, 1, 80], signature := [6],
    timestamp := 0, trusted := true, certificateHash := "x",
    signatureHash := "x", keyTrustInfo := none }

/-- Filesystem of the C4 counterexample: the authority certificate is stored,
but there is no `/rights.json`. -/
def fsAuthority : FS := { certsDir := [("/certs/cAuth.json", some certAuthority)] }

/-- Manager state of the C4 counterexample: person `"Q"` owns key `"kq"`, and
the trust cache holds a trusted verdict for `"kq"`. -/
def stAuthority : MgrState :=
  { keysOfPerson := [("Q", ["kq"])],
    keysTrustCache := [("kq", { keyId := "kq", trusted := true, reason := "seed" })] }

/-- A rights file listing person `"P"` with the global flag set. -/
def fsRightsP : FS :=
  { certsDir := [("/certs/cAuth.json", some certAuthority)],
    rightsJson := some [("P", { global := true, self := false })] }

/-- Manager state of the C5 scenario: one admitted certificate and one cached
verdict. -/
def stSaved : MgrState :=
  { certificates := [certGood],
    keysTrustCache := [("K", { keyId := "K", trusted := false,
                               reason := "No trust certificates found" })] }

/-- The measure behind the chain walk's termination: the number of candidate
recursion targets (the stored certificate ids, plus the key itself) not yet
visited. -/
def dpMeasure (fs : FS) (key : String) (visited : List String) : Nat :=
  ((insert key ((loadCertificates fs "").map CertificateData.id).toFinset) \
    visited.toFinset).card

/-! ### Helper lemmas -/

theorem loadCertificates_arg (fs : FS) (a b : String) :
    loadCertificates fs a = loadCertificates fs b := rfl

theorem find?_filter_ne {α : Type} (p k : String) (h : p ≠ k) :
    ∀ m : List (String × α),
      (m.filter (fun e => !(e.1 == k))).find? (fun e => e.1 == p) =
        m.find? (fun e => e.1 == p)
  | [] => rfl
  | e :: t => by
    by_cases hk : e.1 = k
    · have h1 : (e.1 == k) = true := by simp [hk]
      have h2 : (e.1 == p) = false := by simp [hk]; exact fun hq => h hq.symm
      simp [List.filter_cons, h1, List.find?_cons, h2, find?_filter_ne p k h t]
    · have h1 : (e.1 == k) = false := by simp [hk]
      by_cases hp : e.1 = p
      · have h2 : (e.1 == p) = true := by simp [hp]
        simp [List.filter_cons, h1, List.find?_cons, h2]
      · have h2 : (e.1 == p) = false := by simp [hp]
        simp [List.filter_cons, h1, List.find?_cons, h2, find?_filter_ne p k h t]

theorem mapLookup_insert_self {α : Type} (m : List (String × α)) (k : String) (v : α) :
    mapLookup (mapInsert m k v) k = some v := by
  simp [mapLookup, mapInsert, List.find?_cons]

theorem mapLookup_insert_ne {α : Type} (m : List (String × α)) (k p : String) (v : α)
    (h : p ≠ k) : mapLookup (mapInsert m k v) p = mapLookup m p := by
  have h1 : (k == p) = false := by
    simp only [beq_eq_false_iff_ne, ne_eq]
    exact fun hq => h hq.symm
  simp [mapLookup, mapInsert, List.find?_cons, h1, find?_filter_ne p k h m]

theorem dpLoop_congr (ops : SecOps) (eval1 eval2 : String → KeyTrustInfo) (key : String) :
    ∀ certs : List CertificateData, (∀ c ∈ certs, eval1 c.id = eval2 c.id) →
      dpLoop ops eval1 key certs = dpLoop ops eval2 key certs
  | [], _ => rfl
  | c :: rest, h => by
    have hc : eval1 c.id = eval2 c.id := h c (by simp)
    have hr := dpLoop_congr ops eval1 eval2 key rest (fun d hd => h d (by simp [hd]))
    simp only [dpLoop, hc, hr]

theorem dpLoop_eq_none (ops : SecOps) (eval : String → KeyTrustInfo) (key : String) :
    ∀ certs : List CertificateData, (∀ c ∈ certs, (eval c.id).trusted = false) →
      dpLoop ops eval key certs = none
  | [], _ => rfl
  | c :: rest, h => by
    have hc : (eval c.id).trusted = false := h c (by simp)
    have hr := dpLoop_eq_none ops eval key rest (fun d hd => h d (by simp [hd]))
    simp only [dpLoop, hc, hr]
    split <;> simp [hc, hr]

theorem rootsFind_eq_none (roots : List KeyTrustInfo) (key : String)
    (h : key ∉ roots.map KeyTrustInfo.keyId) :
    roots.find? (fun r => r.keyId == key) = none := by
  rw [List.find?_eq_none]
  intro r hr
  simp only [beq_eq_false_iff_ne, ne_eq, Bool.not_eq_true, beq_iff_eq]
  intro heq
  exact h (heq ▸ List.mem_map_of_mem KeyTrustInfo.keyId hr)

/-! ### Claim theorems -/

/-- C7: two consecutive `isKeyTrusted(k)` calls with no intervening admission
return the same verdict: the first call caches exactly the verdict it
computed, and the second call is answered from `keysTrustCache_` without
changing the state. -/
theorem c7_cached_verdict (ops : SecOps) (fs : FS) (st : MgrState) (key : String) :
    isKeyTrusted ops fs ((isKeyTrusted ops fs st key).2) key =
      ((isKeyTrusted ops fs st key).1, (isKeyTrusted ops fs st key).2) ∧
    ∃ info, mapLookup ((isKeyTrusted ops fs st key).2).keysTrustCache key = some info ∧
      info.trusted = (isKeyTrusted ops fs st key).1 := by
  cases h : mapLookup st.keysTrustCache key with
  | some info =>
    simp only [isKeyTrusted, h]
    exact ⟨trivial, info, rfl, rfl⟩
  | none =>
    simp only [isKeyTrusted, h]
    have h2 := mapLookup_insert_self st.keysTrustCache key
      (getKeyTrustInfoDP ops fs (rootKeyInfosOf (getRootKeys RootKeyMode.MainId)) key [])
    simp only [h2]
    exact ⟨trivial, _, rfl, rfl⟩

/-- C9: `getCertificatesOfType(data, type)` returns the same list for every
value of both arguments — the list of every certificate file stored under
`/certs` that deserializes — so the chain evaluator's request for TrustKeys
certificates endorsing a given key in fact enumerates all stored
certificates. -/
theorem c9_enumeration (fs : FS) (d1 d2 : String) (t1 t2 : CertificateType) :
    getCertificatesOfType fs d1 t1 = getCertificatesOfType fs d2 t2 ∧
    getCertificatesOfType fs d1 t1 = fs.certsDir.filterMap (fun e => e.2) :=
  ⟨rfl, rfl⟩

/-- C10: `updateKeysMaps()` clears `keysToProfileMap_` together with the trust
cache and never repopulates the profile map, so afterwards `getProfileData`
returns null for every hash and timestamp; and the rebuilt trust cache does
not depend on the cache that was cleared. -/
theorem c10_profile_map_cleared (ops : SecOps) (fs : FS) (st : MgrState) :
    (updateKeysMaps ops fs st).keysToProfileMap = [] ∧
    (∀ h t, getProfileData (updateKeysMaps ops fs st) h t = none) ∧
    (∀ cache, (updateKeysMaps ops fs { st with keysTrustCache := cache }).keysTrustCache
        = (updateKeysMaps ops fs st).keysTrustCache) :=
  ⟨rfl, fun _ _ => rfl, fun _ => rfl⟩

/-- C2 (code bug): the root-set provider `getRootKeys` returns the empty list
for both modes — its body is a stub — so `isKeyTrusted` evaluates every key,
including the intended root key `K_R` of the spec's first seed scenario,
against an empty root set and caches an untrusted `"No trust certificates
found"` verdict instead of the expected Root verdict. The chain walk itself
does honour a supplied root set: fed the root infos a provider returning
`{K_R}` would produce, it returns the trusted Root verdict (last conjunct). -/
theorem c2_root_set_stub :
    getRootKeys RootKeyMode.MainId = [] ∧ getRootKeys RootKeyMode.All = [] ∧
    (isKeyTrusted opsMbed fsEmpty initialState "K_R").1 = false ∧
    mapLookup ((isKeyTrusted opsMbed fsEmpty initialState "K_R").2).keysTrustCache "K_R" =
      some { keyId := "K_R", trusted := false, reason := "No trust certificates found" } ∧
    getKeyTrustInfoDP opsMbed fsEmpty (rootKeyInfosOf ["K_R"]) "K_R" [] =
      { keyId := "K_R", trusted := true, reason := "Root key" } := by
  exact ⟨rfl, rfl, by decide, by decide, by decide⟩

/-- C3 (code bug): `validateCertificate` is not purely structural. `certGood`
passes every structural check of the spec's `validate_certificate` (hashes
match, kind tag decodable) under two capabilities with the *same* hash
function; yet the result flips with the signature-verification capability:
under `opsAccept` it is true, under `opsMbed` — whose `verify` rejects the
empty public-key buffer exactly as `mbedtls_pk_parse_public_key` does on the
`std::vector<uint8_t>()` the source passes — every certificate, `certGood`
included, fails validation. -/
theorem c3_validate_not_structural :
    validateCertificateSpec opsAccept certGood = true ∧
    validateCertificateSpec opsMbed certGood = true ∧
    opsAccept.hash = opsMbed.hash ∧
    validateCertificate opsAccept certGood = true ∧
    validateCertificate opsMbed certGood = false ∧
    (∀ cert : CertificateData, validateCertificate opsMbed cert = false) := by
  refine ⟨by decide, by decide, rfl, by decide, by decide, ?_⟩
  intro cert
  simp [validateCertificate, opsMbed]

/-- C5 (code bug): save and load do not round-trip. `saveToStorage` writes the
whole graph into `/trusted_keys.json` and never touches `/certificates.json`,
`/profiles.json` or `/rights.json` (first conjunct, for every state and
filesystem); but `loadFromStorage` reads only those three slots. Hence after
saving a state with one certificate and one cached verdict onto a fresh
filesystem, loading fails and restores nothing: no verdict present before the
save is reproduced. -/
theorem c5_save_load_mismatch :
    (∀ (ops : SecOps) (st : MgrState) (fs : FS),
      ((saveToStorage ops st fs).2).certificatesJson = fs.certificatesJson ∧
      ((saveToStorage ops st fs).2).profilesJson = fs.profilesJson ∧
      ((saveToStorage ops st fs).2).rightsJson = fs.rightsJson ∧
      ((saveToStorage ops st fs).2).certsDir = fs.certsDir) ∧
    (saveToStorage opsMbed stSaved fsEmpty).1 = true ∧
    ((saveToStorage opsMbed stSaved fsEmpty).2).trustedKeysJson.isSome = true ∧
    (loadFromStorage (saveToStorage opsMbed stSaved fsEmpty).2 initialState).1 = false ∧
    (loadFromStorage (saveToStorage opsMbed stSaved fsEmpty).2 initialState).2 = initialState := by
  exact ⟨fun ops st fs => ⟨rfl, rfl, rfl, rfl⟩, rfl, rfl, rfl, rfl⟩

/-- C6 counterexample: a certificate whose stored `certificateHash` differs
from the hash of its payload is *not* rejected by `storeCertificate`: the call
returns true and the record lands under `/certs`, from where every subsequent
certificate enumeration returns it. -/
theorem c6_store_counterexample :
    validateCertificate opsMbed certBadHash = false ∧
    (opsMbed.hash certBadHash.certificate == certBadHash.certificateHash) = false ∧
    (storeCertificate fsEmpty certBadHash).1 = true ∧
    certBadHash ∈ loadCertificates (storeCertificate fsEmpty certBadHash).2 "" := by
  exact ⟨by decide, by decide, rfl, by decide⟩

/-- A written certificate is visible to every subsequent enumeration: after
`fsWriteCert`, the certificate is among the parsed files of `/certs`. -/
theorem mem_loadCertificates_fsWriteCert (fs : FS) (name : String) (cert : CertificateData)
    (p : String) : cert ∈ loadCertificates (fsWriteCert fs name cert) p := by
  simp only [loadCertificates, fsWriteCert]
  by_cases hany : fs.certsDir.any (fun e => e.1 == name)
  · simp only [hany, if_true]
    rw [List.any_eq_true] at hany
    obtain ⟨e, he, hek⟩ := hany
    rw [List.mem_filterMap]
    refine ⟨(name, some cert), ?_, rfl⟩
    rw [List.mem_map]
    exact ⟨e, he, by simp [hek]⟩
  · simp only [hany, if_false]
    rw [List.mem_filterMap]
    exact ⟨(name, some cert), by simp, rfl⟩

/-- C6 amended: `storeCertificate` performs no structural validation. Even for
a certificate that fails `validateCertificate` — in particular one whose
stored hashes do not match — the call succeeds and the record is written under
`/certs`, becoming part of every later certificate enumeration. Rejection can
come only from filesystem errors. -/
theorem c6_store_unvalidated (ops : SecOps) (fs : FS) (cert : CertificateData)
    (h : validateCertificate ops cert = false) :
    (storeCertificate fs cert).1 = true ∧
    cert ∈ loadCertificates (storeCertificate fs cert).2 "" :=
  ⟨rfl, mem_loadCertificates_fsWriteCert fs (certsPath cert.id) cert ""⟩

/-- Witness for `c6_store_unvalidated` at the hash-mismatched certificate
`certBadHash`. -/
theorem c6_store_unvalidated_witness :
    validateCertificate opsAccept certBadHash = false ∧
    ((storeCertificate fsEmpty certBadHash).1 = true ∧
      certBadHash ∈ loadCertificates (storeCertificate fsEmpty certBadHash).2 "") :=
  ⟨by decide, c6_store_unvalidated opsAccept fsEmpty certBadHash (by decide)⟩

/-- When neither the key under evaluation nor any stored certificate id is a
root key, the chain walk can never produce a trusted verdict, at any fuel and
from any visited list: trust only ever enters through the root list. -/
theorem dpFuel_untrusted (ops : SecOps) (fs : FS) (roots : List KeyTrustInfo)
    (hids : ∀ c ∈ loadCertificates fs "", c.id ∉ roots.map KeyTrustInfo.keyId) :
    ∀ (fuel : Nat) (key : String) (visited : List String),
      key ∉ roots.map KeyTrustInfo.keyId →
      (dpFuel ops fs roots fuel key visited).trusted = false
  | 0, _, _, _ => rfl
  | fuel + 1, key, visited, hk => by
    simp only [dpFuel]
    by_cases hv : key ∈ visited
    · simp [hv]
    · simp only [hv, if_false]
      rw [rootsFind_eq_none roots key hk]
      by_cases he : (getCertificatesOfType fs key CertificateType.TrustKeys).isEmpty
      · simp [he]
      · simp only [he, Bool.false_eq_true, if_false]
        have hnone : dpLoop ops (fun k => dpFuel ops fs roots fuel k (visited ++ [key])) key
            (getCertificatesOfType fs key CertificateType.TrustKeys) = none := by
          apply dpLoop_eq_none
          intro c hc
          exact dpFuel_untrusted ops fs roots hids fuel c.id (visited ++ [key]) (hids c hc)
        rw [hnone]

/-- One-step unfolding of the fuelled chain walk (the definition's body,
lets inlined). -/
theorem dpFuel_succ (ops : SecOps) (fs : FS) (roots : List KeyTrustInfo)
    (fuel : Nat) (key : String) (visited : List String) :
    dpFuel ops fs roots (fuel + 1) key visited =
      if key ∈ visited then
        { keyId := key, trusted := false, reason := "Circular dependency detected" }
      else
        match roots.find? (fun rootInfo => rootInfo.keyId == key) with
        | some rootInfo => rootInfo
        | none =>
          if (getCertificatesOfType fs key CertificateType.TrustKeys).isEmpty then
            { keyId := key, trusted := false, reason := "No trust certificates found" }
          else
            match dpLoop ops (fun k => dpFuel ops fs roots fuel k (visited ++ [key])) key
                (getCertificatesOfType fs key CertificateType.TrustKeys) with
            | some r => r
            | none =>
              { keyId := key, trusted := false, reason := "No trusted certification path found" } :=
  rfl

/-- A key already under evaluation is answered immediately as a cycle. -/
theorem dpFuel_cycle (ops : SecOps) (fs : FS) (roots : List KeyTrustInfo)
    (fuel : Nat) (key : String) (visited : List String) (hv : key ∈ visited) :
    dpFuel ops fs roots (fuel + 1) key visited =
      { keyId := key, trusted := false, reason := "Circular dependency detected" } := by
  rw [dpFuel_succ, if_pos hv]

/-- A non-visited key found in the root list is answered with its root
verdict. -/
theorem dpFuel_root (ops : SecOps) (fs : FS) (roots : List KeyTrustInfo)
    (fuel : Nat) (key : String) (visited : List String) (rg : KeyTrustInfo)
    (hv : key ∉ visited) (hf : roots.find? (fun rootInfo => rootInfo.keyId == key) = some rg) :
    dpFuel ops fs roots (fuel + 1) key visited = rg := by
  rw [dpFuel_succ, if_neg hv, hf]

/-- A non-visited, non-root key with a nonempty certificate store is decided
by the candidate loop. -/
theorem dpFuel_main (ops : SecOps) (fs : FS) (roots : List KeyTrustInfo)
    (fuel : Nat) (key : String) (visited : List String) (c : CertificateData)
    (t : List CertificateData) (hv : key ∉ visited)
    (hf : roots.find? (fun rootInfo => rootInfo.keyId == key) = none)
    (hc : getCertificatesOfType fs key CertificateType.TrustKeys = c :: t) :
    dpFuel ops fs roots (fuel + 1) key visited =
      match dpLoop ops (fun k => dpFuel ops fs roots fuel k (visited ++ [key])) key (c :: t) with
      | some r => r
      | none =>
        { keyId := key, trusted := false, reason := "No trusted certification path found" } := by
  rw [dpFuel_succ, if_neg hv, hf, hc]
  rfl

/-- C1: (a) for a key whose candidate certificates all loop back without
reaching a root — no stored certificate id is in the root set, which, the
certificate enumeration being global, means every endorsement chain revisits a
key under evaluation — `getKeyTrustInfoDP` returns the untrusted NoPath
verdict (`"No trusted certification path found"`); (b) a cyclic branch is
opaque but does not poison the rest: with a self-endorsing certificate (whose
recursion target is the evaluated key itself, so the branch lands in
`visitedKeys` at once) listed before a certificate reaching a trusted root,
the verdict is trusted through the second certificate. -/
theorem c1_cycles_no_path :
    (∀ (ops : SecOps) (fs : FS) (roots : List KeyTrustInfo) (key : String),
      loadCertificates fs key ≠ [] →
      key ∉ roots.map KeyTrustInfo.keyId →
      (∀ c ∈ loadCertificates fs key, c.id ∉ roots.map KeyTrustInfo.keyId) →
      getKeyTrustInfoDP ops fs roots key [] =
        { keyId := key, trusted := false, reason := "No trusted certification path found" }) ∧
    (∀ (ops : SecOps) (fs : FS) (roots : List KeyTrustInfo) (key : String)
        (cs cg : CertificateData) (rg : KeyTrustInfo),
      loadCertificates fs key = [cs, cg] →
      cs.id = key →
      validateCertificate ops cs = true →
      validateCertificate ops cg = true →
      roots.find? (fun rootInfo => rootInfo.keyId == cg.id) = some rg →
      rg.trusted = true →
      key ∉ roots.map KeyTrustInfo.keyId →
      cg.id ≠ key →
      getKeyTrustInfoDP ops fs roots key [] =
        { keyId := key, trusted := true, reason := "Trusted by " ++ cg.id }) := by
  constructor
  · intro ops fs roots key hne hk hids
    have hids0 : ∀ c ∈ loadCertificates fs "", c.id ∉ roots.map KeyTrustInfo.keyId := hids
    cases hb : dpBound fs with
    | zero => exact absurd hb (by simp [dpBound])
    | succ n =>
      rw [getKeyTrustInfoDP, hb]
      cases hcerts : getCertificatesOfType fs key CertificateType.TrustKeys with
      | nil => exact absurd hcerts hne
      | cons c t =>
        have h2 : loadCertificates fs key = c :: t := hcerts
        rw [dpFuel_main ops fs roots n key [] c t (List.not_mem_nil key)
          (rootsFind_eq_none roots key hk) hcerts]
        have hnone : dpLoop ops (fun k => dpFuel ops fs roots n k ([] ++ [key])) key (c :: t)
            = none := by
          apply dpLoop_eq_none
          intro d hd
          exact dpFuel_untrusted ops fs roots hids0 n d.id ([] ++ [key])
            (hids d (by rw [h2]; exact hd))
        rw [hnone]
  · intro ops fs roots key cs cg rg hl hcs hvs hvg hfind hrg hk hgk
    have hl0 : loadCertificates fs "" = [cs, cg] :=
      (loadCertificates_arg fs "" key).trans hl
    have hb : dpBound fs = 4 := by rw [dpBound, hl0]; rfl
    rw [getKeyTrustInfoDP, hb]
    show dpFuel ops fs roots (3 + 1) key [] = _
    have hcerts : getCertificatesOfType fs key CertificateType.TrustKeys = cs :: [cg] := hl
    rw [dpFuel_main ops fs roots 3 key [] cs [cg] (List.not_mem_nil key)
      (rootsFind_eq_none roots key hk) hcerts]
    have hself : dpFuel ops fs roots 3 cs.id ([] ++ [key]) =
        { keyId := cs.id, trusted := false, reason := "Circular dependency detected" } := by
      show dpFuel ops fs roots (2 + 1) cs.id ([] ++ [key]) = _
      exact dpFuel_cycle ops fs roots 2 cs.id ([] ++ [key]) (by simp [hcs])
    have hroot : dpFuel ops fs roots 3 cg.id ([] ++ [key]) = rg := by
      show dpFuel ops fs roots (2 + 1) cg.id ([] ++ [key]) = _
      exact dpFuel_root ops fs roots 2 cg.id ([] ++ [key]) rg (by simp [hgk]) hfind
    have hloop : dpLoop ops (fun k => dpFuel ops fs roots 3 k ([] ++ [key])) key (cs :: [cg])
        = some { keyId := key, trusted := true, reason := "Trusted by " ++ cg.id } := by
      simp only [dpLoop, hvs, if_true, hself, Bool.false_eq_true, if_false, hvg, hroot, hrg]
    rw [hloop]

/-- Witness for `c1_cycles_no_path`: part (a) at the two mutually endorsing
certificates (evaluating `"x1"` with root set `{r}`), part (b) at the
self-endorsing certificate followed by the root-reaching one. -/
theorem c1_cycles_no_path_witness :
    getKeyTrustInfoDP opsAccept fsCyc rootsR "x1" [] =
      { keyId := "x1", trusted := false, reason := "No trusted certification path found" } ∧
    getKeyTrustInfoDP opsAccept fsSelfRoot rootsR "k" [] =
      { keyId := "k", trusted := true, reason := "Trusted by " ++ "r" } :=
  ⟨c1_cycles_no_path.1 opsAccept fsCyc rootsR "x1" (by decide) (by decide) (by decide),
   c1_cycles_no_path.2 opsAccept fsSelfRoot rootsR "k" certSelf certToRoot
     { keyId := "r", trusted := true, reason := "Root key" }
     (by decide) (by decide) (by decide) (by decide) (by decide) rfl (by decide) (by decide)⟩

/-- A non-visited, non-root key with an empty certificate store is answered
with the `"No trust certificates found"` verdict. -/
theorem dpFuel_nocerts (ops : SecOps) (fs : FS) (roots : List KeyTrustInfo)
    (fuel : Nat) (key : String) (visited : List String) (hv : key ∉ visited)
    (hf : roots.find? (fun rootInfo => rootInfo.keyId == key) = none)
    (hc : getCertificatesOfType fs key CertificateType.TrustKeys = []) :
    dpFuel ops fs roots (fuel + 1) key visited =
      { keyId := key, trusted := false, reason := "No trust certificates found" } := by
  rw [dpFuel_succ, if_neg hv, hf, hc]
  rfl

/-- The strict decrease behind the chain walk: a recursion target drawn from
the stored certificate ids, with the current (unvisited) key appended to the
visited list, has a strictly smaller measure. -/
theorem dpMeasure_lt (fs : FS) (key cid : String) (visited : List String)
    (hv : key ∉ visited) (hc : cid ∈ (loadCertificates fs "").map CertificateData.id) :
    dpMeasure fs cid (visited ++ [key]) < dpMeasure fs key visited := by
  classical
  unfold dpMeasure
  have hcid : cid ∈ ((loadCertificates fs "").map CertificateData.id).toFinset :=
    List.mem_toFinset.2 hc
  have hins : insert cid ((loadCertificates fs "").map CertificateData.id).toFinset =
      ((loadCertificates fs "").map CertificateData.id).toFinset :=
    Finset.insert_eq_self.2 hcid
  have hvf : (visited ++ [key]).toFinset = insert key visited.toFinset := by
    rw [List.toFinset_append]
    show visited.toFinset ∪ [key].toFinset = insert key visited.toFinset
    rw [Finset.union_comm]
    simp [Finset.insert_eq]
  have hkeyA : key ∈ insert key ((loadCertificates fs "").map CertificateData.id).toFinset \
      visited.toFinset := by
    rw [Finset.mem_sdiff]
    exact ⟨Finset.mem_insert_self key _, fun hk => hv (List.mem_toFinset.1 hk)⟩
  have hsub : insert cid ((loadCertificates fs "").map CertificateData.id).toFinset \
      (visited ++ [key]).toFinset ⊆
      (insert key ((loadCertificates fs "").map CertificateData.id).toFinset \
        visited.toFinset).erase key := by
    intro x hx
    rw [hins, hvf, Finset.mem_sdiff, Finset.mem_insert] at hx
    obtain ⟨hxI, hxnot⟩ := hx
    push_neg at hxnot
    rw [Finset.mem_erase, Finset.mem_sdiff, Finset.mem_insert]
    exact ⟨hxnot.1, Or.inr hxI, hxnot.2⟩
  calc (insert cid ((loadCertificates fs "").map CertificateData.id).toFinset \
        (visited ++ [key]).toFinset).card
      ≤ ((insert key ((loadCertificates fs "").map CertificateData.id).toFinset \
        visited.toFinset).erase key).card := Finset.card_le_card hsub
    _ < (insert key ((loadCertificates fs "").map CertificateData.id).toFinset \
        visited.toFinset).card := Finset.card_erase_lt_of_mem hkeyA

/-- The measure never exceeds the fuel supplied by `dpBound`. -/
theorem dpMeasure_le_bound (fs : FS) (key : String) (visited : List String) :
    dpMeasure fs key visited + 1 ≤ dpBound fs := by
  unfold dpMeasure dpBound
  have h1 := Finset.card_le_card
    (Finset.sdiff_subset (s := insert key ((loadCertificates fs "").map CertificateData.id).toFinset)
      (t := visited.toFinset))
  have h2 := Finset.card_insert_le key ((loadCertificates fs "").map CertificateData.id).toFinset
  have h3 := List.toFinset_card_le ((loadCertificates fs "").map CertificateData.id)
  have h4 : ((loadCertificates fs "").map CertificateData.id).length =
      (loadCertificates fs "").length := List.length_map _ _
  omega

/-- Fuel irrelevance: any two fuels above the measure give the same chain-walk
result. This is the formal termination argument: each recursive call appends
the current key to the visited list while its target is a stored certificate
id, so the measure strictly decreases, and a visited key returns at once. -/
theorem dpFuel_stable (ops : SecOps) (fs : FS) (roots : List KeyTrustInfo) :
    ∀ (f g : Nat) (key : String) (visited : List String),
      dpMeasure fs key visited + 1 ≤ f → dpMeasure fs key visited + 1 ≤ g →
      dpFuel ops fs roots f key visited = dpFuel ops fs roots g key visited := by
  intro f
  induction f with
  | zero => exact fun g key visited hf _ => absurd hf (Nat.not_succ_le_zero _)
  | succ f ih =>
    intro g key visited hf hg
    cases g with
    | zero => exact absurd hg (Nat.not_succ_le_zero _)
    | succ g' =>
      by_cases hv : key ∈ visited
      · rw [dpFuel_cycle ops fs roots f key visited hv,
            dpFuel_cycle ops fs roots g' key visited hv]
      · cases hfind : roots.find? (fun rootInfo => rootInfo.keyId == key) with
        | some r =>
          rw [dpFuel_root ops fs roots f key visited r hv hfind,
              dpFuel_root ops fs roots g' key visited r hv hfind]
        | none =>
          cases hcerts : getCertificatesOfType fs key CertificateType.TrustKeys with
          | nil =>
            rw [dpFuel_nocerts ops fs roots f key visited hv hfind hcerts,
                dpFuel_nocerts ops fs roots g' key visited hv hfind hcerts]
          | cons c t =>
            have h2 : loadCertificates fs key = c :: t := hcerts
            rw [dpFuel_main ops fs roots f key visited c t hv hfind hcerts,
                dpFuel_main ops fs roots g' key visited c t hv hfind hcerts]
            have hcong :
                dpLoop ops (fun k => dpFuel ops fs roots f k (visited ++ [key])) key (c :: t) =
                dpLoop ops (fun k => dpFuel ops fs roots g' k (visited ++ [key])) key (c :: t) := by
              apply dpLoop_congr
              intro d hd
              have hdid : d.id ∈ (loadCertificates fs "").map CertificateData.id := by
                rw [loadCertificates_arg fs "" key, h2]
                exact List.mem_map_of_mem CertificateData.id hd
              have hlt := dpMeasure_lt fs key d.id visited hv hdid
              exact ih g' d.id (visited ++ [key]) (by omega) (by omega)
            rw [hcong]

/-- C8: the chain evaluation terminates for every key, root list and initial
visited list — formally, the fuelled walk's result is already stable at
`dpBound` (one more than the certificate count), so any larger fuel computes
the same verdict as `getKeyTrustInfoDP`: the recursion depth is bounded
because every recursive call extends the visited list and a visited key is
answered immediately. -/
theorem c8_termination (ops : SecOps) (fs : FS) (roots : List KeyTrustInfo)
    (key : String) (visited : List String) (fuel : Nat) (h : dpBound fs ≤ fuel) :
    dpFuel ops fs roots fuel key visited = getKeyTrustInfoDP ops fs roots key visited := by
  rw [getKeyTrustInfoDP]
  exact dpFuel_stable ops fs roots fuel (dpBound fs) key visited
    (le_trans (dpMeasure_le_bound fs key visited) h) (dpMeasure_le_bound fs key visited)

/-- Witness for `c8_termination`: with the self-endorsing store, fuel 9 and
the bound compute the same verdict for `"k"`. -/
theorem c8_termination_witness :
    dpBound fsSelf ≤ 9 ∧
    dpFuel opsAccept fsSelf rootsR 9 "k" [] = getKeyTrustInfoDP opsAccept fsSelf rootsR "k" [] :=
  ⟨by decide, c8_termination opsAccept fsSelf rootsR "k" [] 9 (by decide)⟩

/-- `isKeyTrusted` touches only the trust cache: the rights map survives. -/
theorem isKeyTrusted_pr (ops : SecOps) (fs : FS) (st : MgrState) (k : String) :
    ((isKeyTrusted ops fs st k).2).personRightsMap = st.personRightsMap := by
  cases h : mapLookup st.keysTrustCache k <;> simp [isKeyTrusted, h]

/-- The key loop of the signature verifier leaves the rights map alone. -/
theorem findVerifyingKey_pr (ops : SecOps) (fs : FS) :
    ∀ (keys : List String) (st : MgrState) (d sb : Bytes),
      ((findVerifyingKey ops fs st keys d sb).2).personRightsMap = st.personRightsMap
  | [], _, _, _ => rfl
  | k :: rest, st, d, sb => by
    simp only [findVerifyingKey]
    by_cases hv : ops.verify d sb (ops.b64decode k) = true
    · simp only [hv, if_true]
      cases hk : isKeyTrusted ops fs st k with
      | mk t st' =>
        have h := isKeyTrusted_pr ops fs st k
        rw [hk] at h
        simpa using h
    · simp only [hv, Bool.false_eq_true, if_false]
      exact findVerifyingKey_pr ops fs rest st d sb

/-- `findKeyThatVerifiesSignature` leaves the rights map alone. -/
theorem findKey_pr (ops : SecOps) (fs : FS) (st : MgrState) (sig : Signature) :
    ((findKeyThatVerifiesSignature ops fs st sig).2).personRightsMap = st.personRightsMap := by
  unfold findKeyThatVerifiesSignature
  cases h : mapLookup st.keysOfPerson sig.signer with
  | none => rfl
  | some keys => exact findVerifyingKey_pr ops fs keys st sig.data sig.signature

/-- `verifySignatureWithTrustedKeys` leaves the rights map alone. -/
theorem verifySig_pr (ops : SecOps) (fs : FS) (st : MgrState) (sig : Signature) :
    ((verifySignatureWithTrustedKeys ops fs st sig).2).personRightsMap = st.personRightsMap := by
  unfold verifySignatureWithTrustedKeys
  cases hf : findKeyThatVerifiesSignature ops fs st sig with
  | mk info st' =>
    have h := findKey_pr ops fs st sig
    rw [hf] at h
    cases info <;> simpa using h

/-- The rights scan threads state only through the verifier, so it leaves the
rights map alone. -/
theorem certRightsHit_pr (ops : SecOps) (fs : FS) (pid : String) (tag : Nat) :
    ∀ (certs : List CertificateData) (st : MgrState),
      ((certRightsHit ops fs pid tag st certs).2).personRightsMap = st.personRightsMap
  | [], _ => rfl
  | cert :: rest, st => by
    simp only [certRightsHit]
    by_cases ht : cert.trusted = true
    · simp only [ht, if_true]
      cases hv : verifySignatureWithTrustedKeys ops fs st
          { signer := pid, data := cert.signature } with
      | mk ok st' =>
        have e : st'.personRightsMap = st.personRightsMap := by
          have h := verifySig_pr ops fs st { signer := pid, data := cert.signature }
          rw [hv] at h
          exact h
        by_cases hcond : (ok && decide (0 < cert.certificate.length) &&
            (payloadTag cert.certificate == tag)) = true
        · simp [hcond, e]
        · simp only [hcond, Bool.false_eq_true, if_false]
          rw [certRightsHit_pr ops fs pid tag rest st']
          exact e
    · simp only [ht, Bool.false_eq_true, if_false]
      exact certRightsHit_pr ops fs pid tag rest st

/-- `processPerson` inserts exactly one rights entry, for the person under
scrutiny; its global (resp. self) bit can only be set when the rights file's
`global` (resp. `self`) flag is set. The root-key branch contributes nothing:
`getRootKeys(All)` is empty. -/
theorem processPerson_shape (ops : SecOps) (fs : FS) (st : MgrState) (pid : String)
    (rr : RightsRec) :
    ∃ v : PersonRights,
      (processPerson ops fs st pid rr).personRightsMap = mapInsert st.personRightsMap pid v ∧
      (v.rightToDeclareTrustedKeysForEverybody = true → rr.global = true) ∧
      (v.rightToDeclareTrustedKeysForSelf = true → rr.self = true) := by
  cases hgl : rr.global with
  | true =>
    cases hch1 : certRightsHit ops fs pid
        (ctTag CertificateType.RightToDeclareTrustedKeysForEverybody) st
        (loadCertificates fs pid) with
    | mk g st1 =>
      have e1 : st1.personRightsMap = st.personRightsMap := by
        have h := certRightsHit_pr ops fs pid
          (ctTag CertificateType.RightToDeclareTrustedKeysForEverybody)
          (loadCertificates fs pid) st
        rw [hch1] at h
        exact h
      cases hsl : rr.self with
      | true =>
        cases hch2 : certRightsHit ops fs pid
            (ctTag CertificateType.RightToDeclareTrustedKeysForSelf) st1
            (loadCertificates fs pid) with
        | mk s st2 =>
          have e2 : st2.personRightsMap = st1.personRightsMap := by
            have h := certRightsHit_pr ops fs pid
              (ctTag CertificateType.RightToDeclareTrustedKeysForSelf)
              (loadCertificates fs pid) st1
            rw [hch2] at h
            exact h
          refine ⟨⟨g, s⟩, ?_, fun _ => rfl, fun _ => rfl⟩
          simp [processPerson, hgl, hsl, hch1, hch2, getRootKeys, e1, e2]
      | false =>
        refine ⟨⟨g, false⟩, ?_, fun _ => rfl, fun h => absurd h (by simp)⟩
        simp [processPerson, hgl, hsl, hch1, getRootKeys, e1]
  | false =>
    cases hsl : rr.self with
    | true =>
      cases hch2 : certRightsHit ops fs pid
          (ctTag CertificateType.RightToDeclareTrustedKeysForSelf) st
          (loadCertificates fs pid) with
      | mk s st2 =>
        have e2 : st2.personRightsMap = st.personRightsMap := by
          have h := certRightsHit_pr ops fs pid
            (ctTag CertificateType.RightToDeclareTrustedKeysForSelf)
            (loadCertificates fs pid) st
          rw [hch2] at h
          exact h
        refine ⟨⟨false, s⟩, ?_, fun h => absurd h (by simp), fun _ => rfl⟩
        simp [processPerson, hgl, hsl, hch2, getRootKeys, e2]
    | false =>
      refine ⟨⟨false, false⟩, ?_, fun h => absurd h (by simp), fun h => absurd h (by simp)⟩
      simp [processPerson, hgl, hsl, getRootKeys]

/-- Fold invariant for the rights rebuild: every entry of the resulting map is
justified by the rights file — its global (self) bit can only be set when the
file lists that person with the corresponding flag set. -/
theorem foldProcess_lookup (ops : SecOps) (fs : FS) (L : List (String × RightsRec)) :
    ∀ (l : List (String × RightsRec)) (st : MgrState),
      (∀ pr ∈ l, pr ∈ L) →
      (∀ (p : String) (r : PersonRights), mapLookup st.personRightsMap p = some r →
        (r.rightToDeclareTrustedKeysForEverybody = true → ∃ rr, (p, rr) ∈ L ∧ rr.global = true) ∧
        (r.rightToDeclareTrustedKeysForSelf = true → ∃ rr, (p, rr) ∈ L ∧ rr.self = true)) →
      ∀ (p : String) (r : PersonRights),
        mapLookup ((l.foldl (fun acc pr => processPerson ops fs acc pr.1 pr.2) st).personRightsMap)
          p = some r →
        (r.rightToDeclareTrustedKeysForEverybody = true → ∃ rr, (p, rr) ∈ L ∧ rr.global = true) ∧
        (r.rightToDeclareTrustedKeysForSelf = true → ∃ rr, (p, rr) ∈ L ∧ rr.self = true)
  | [], st, _, hinv => hinv
  | pr :: rest, st, hmem, hinv => by
    rw [List.foldl_cons]
    apply foldProcess_lookup ops fs L rest (processPerson ops fs st pr.1 pr.2)
      (fun q hq => hmem q (List.mem_cons_of_mem pr hq))
    intro p r hp
    obtain ⟨v, hmap, hvg, hvs⟩ := processPerson_shape ops fs st pr.1 pr.2
    rw [hmap] at hp
    by_cases hpk : p = pr.1
    · subst hpk
      rw [mapLookup_insert_self] at hp
      injection hp with hvr
      subst hvr
      have hprL : (pr.1, pr.2) ∈ L := by
        have := hmem pr (List.mem_cons_self pr rest)
        simpa using this
      exact ⟨fun hb => ⟨pr.2, hprL, hvg hb⟩, fun hb => ⟨pr.2, hprL, hvs hb⟩⟩
    · rw [mapLookup_insert_ne _ _ _ _ hpk] at hp
      exact hinv p r hp

/-- C4 amended: after `updatePersonRightsMap`, a person can hold
`may_endorse_for_everybody` (resp. `for_self`) only if `/rights.json` lists
that person with the `global` (resp. `self`) flag already set; with no rights
file the rebuilt map is empty. In particular the rights are gated on the prior
rights file, not derived from the admitted authority certificates alone. -/
theorem c4_rights_gated (ops : SecOps) (fs : FS) (st : MgrState) :
    (fs.rightsJson = none → ((updatePersonRightsMap ops fs st).1).personRightsMap = []) ∧
    (∀ (l : List (String × RightsRec)) (p : String) (r : PersonRights),
      fs.rightsJson = some l →
      mapLookup ((updatePersonRightsMap ops fs st).1).personRightsMap p = some r →
      (r.rightToDeclareTrustedKeysForEverybody = true → ∃ rr, (p, rr) ∈ l ∧ rr.global = true) ∧
      (r.rightToDeclareTrustedKeysForSelf = true → ∃ rr, (p, rr) ∈ l ∧ rr.self = true)) := by
  constructor
  · intro h
    simp [updatePersonRightsMap, h]
  · intro l p r hl hr
    simp only [updatePersonRightsMap, hl] at hr
    refine foldProcess_lookup ops fs l l { st with personRightsMap := [] }
      (fun q hq => hq) ?_ p r hr
    intro q rq hq
    simp [mapLookup] at hq

/-- C4 counterexample: the claimed equivalence fails. In the concrete state
`stAuthority` with store `fsAuthority` there *is* a valid admitted certificate
of kind `RightToDeclareTrustedKeysForEverybody` whose signer `"Q"` has a key
the chain evaluator trusts and whose payload names `"P"` as grantee (the
spec-side condition is true); yet after the rights map is rebuilt,
`may_endorse_for_everybody("P")` is false — the rebuild is gated on a
`/rights.json` file, which is absent here. -/
theorem c4_rights_counterexample :
    specMayEndorseForEverybody opsAccept fsAuthority stAuthority "P" = true ∧
    mayEndorseForEverybody ((updatePersonRightsMap opsAccept fsAuthority stAuthority).1) "P"
      = false :=
  ⟨by decide, by decide⟩

/-- Witness for `c4_rights_gated`: the no-rights-file part at the
counterexample state, and the listed-person part at a rights file listing
`"P"` with the global flag set (where the rebuild computes rights
`⟨false, false⟩` for `"P"`, since the certificate's signature does not verify
under a trusted key of `"P"` itself). -/
theorem c4_rights_gated_witness :
    ((updatePersonRightsMap opsAccept fsAuthority stAuthority).1).personRightsMap = [] ∧
    ((({ rightToDeclareTrustedKeysForEverybody := false,
         rightToDeclareTrustedKeysForSelf := false } : PersonRights).rightToDeclareTrustedKeysForEverybody = true →
        ∃ rr, ("P", rr) ∈ [("P", ({ global := true, self := false } : RightsRec))] ∧ rr.global = true) ∧
     (({ rightToDeclareTrustedKeysForEverybody := false,
         rightToDeclareTrustedKeysForSelf := false } : PersonRights).rightToDeclareTrustedKeysForSelf = true →
        ∃ rr, ("P", rr) ∈ [("P", ({ global := true, self := false } : RightsRec))] ∧ rr.self = true)) :=
  ⟨(c4_rights_gated opsAccept fsAuthority stAuthority).1 rfl,
   (c4_rights_gated opsAccept fsRightsP stAuthority).2
     [("P", { global := true, self := false })] "P"
     { rightToDeclareTrustedKeysForEverybody := false,
       rightToDeclareTrustedKeysForSelf := false } rfl (by decide)⟩
